import Mathlib

set_option maxRecDepth 10000

namespace Pub

/-!
Shallow embedding of the publication-product pipeline:
the two extractors of src/account/extractors.py and the LaTeX renderer of
src/account/converter.py.  Pure text operations are modelled over List Char;
the Python regular expressions used by the code are hand-translated with
their leftmost / greedy / backtracking semantics.  The character class \w
is modelled over its ASCII fragment, which covers every input considered
here.  File-system writes are modelled as an explicit list of
(path, blob) records; the uncaught-exception behaviour of extract_pdf is
modelled with Except.
-/

/-! ### Character and string primitives -/

/-- Python whitespace class \s (ASCII part). -/
def isWs (c : Char) : Bool :=
  c == ' ' || c == '\t' || c == '\n' || c == '\r' || c == '\x0b' || c == '\x0c'

/-- ASCII fragment of the Python \w class. -/
def isWordChar (c : Char) : Bool :=
  c.isAlpha || c.isDigit || c == '_'

def lowerList (cs : List Char) : List Char := cs.map Char.toLower

def lowerStr (s : String) : String := ⟨lowerList s.data⟩

/-- str.strip() with no argument: trim whitespace at both ends. -/
def stripChars (cs : List Char) : List Char :=
  ((cs.dropWhile isWs).reverse.dropWhile isWs).reverse

def stripStr (s : String) : String := ⟨stripChars s.data⟩

/-- Literal list-prefix test. -/
def listPrefixTest : List Char → List Char → Bool
  | [], _ => true
  | _ :: _, [] => false
  | p :: ps, c :: cs => p == c && listPrefixTest ps cs

/-- Case-insensitive prefix test: the pattern is given lowercase. -/
def ciPrefixTest : List Char → List Char → Bool
  | [], _ => true
  | _ :: _, [] => false
  | p :: ps, c :: cs => p == c.toLower && ciPrefixTest ps cs

/-- Case-insensitive prefix removal; the pattern is given lowercase. -/
def ciPrefixDrop : List Char → List Char → Option (List Char)
  | [], cs => some cs
  | _ :: _, [] => none
  | p :: ps, c :: cs => if p == c.toLower then ciPrefixDrop ps cs else none

def strStartsWith (s : String) (pat : String) : Bool :=
  listPrefixTest pat.data s.data

/-- re.sub(r'\s+', ' ', text): collapse each whitespace run to one space.
    The flag records whether the previous character was whitespace. -/
def collapseWsAux : Bool → List Char → List Char
  | _, [] => []
  | prevWs, c :: rest =>
    if isWs c then
      if prevWs then collapseWsAux true rest
      else ' ' :: collapseWsAux true rest
    else c :: collapseWsAux false rest

/-- clean_text of extract_docx: collapse whitespace runs, then strip. -/
def clean_text (s : String) : String :=
  ⟨stripChars (collapseWsAux false s.data)⟩

/-- str.replace: all non-overlapping occurrences, left to right.  The fuel
    starts at the length of the text, which is enough because every step
    consumes at least one character of the input. -/
def replaceFuel (pat rep : List Char) : Nat → List Char → List Char
  | _, [] => []
  | 0, cs => cs
  | Nat.succ n, c :: rest =>
    if listPrefixTest pat (c :: rest) then
      rep ++ replaceFuel pat rep n (List.drop pat.length (c :: rest))
    else c :: replaceFuel pat rep n rest

def strReplace (s pat rep : String) : String :=
  ⟨replaceFuel pat.data rep.data s.data.length s.data⟩

/-- Join a list of strings with a separator. -/
def joinWith (sep : String) : List String → String
  | [] => ""
  | [x] => x
  | x :: y :: rest => x ++ sep ++ joinWith sep (y :: rest)

/-- re.split(r',|;', s): split at every comma or semicolon, keeping empties. -/
def splitCommaSemi : List Char → List (List Char)
  | [] => [[]]
  | c :: rest =>
    if c == ',' || c == ';' then [] :: splitCommaSemi rest
    else
      match splitCommaSemi rest with
      | [] => [[c]]
      | g :: gs => (c :: g) :: gs

def digitsVal (cs : List Char) : Nat :=
  cs.foldl (fun acc c => 10 * acc + (c.toNat - 48)) 0

/-! ### The e-mail regular expression of the author-block parser

re.search / re.sub with the pattern [\w\.-]+@[\w\.-]+\.\w+ . -/

def isEmailChar (c : Char) : Bool := isWordChar c || c == '.' || c == '-'

/-- Greedy backtracking of the domain part [\w\.-]+\.\w+ : find the last
    dot that is followed by a word character, preferring the deepest
    position (the regex engine shortens the greedy first group from the
    right).  Returns the consumed characters and the leftover of the run. -/
def domainSplitAux : List Char → Option (List Char × List Char)
  | [] => none
  | c :: rest =>
    match domainSplitAux rest with
    | some (m, lft) => some (c :: m, lft)
    | none =>
      if c == '.' then
        match rest with
        | d :: _ =>
          if isWordChar d then
            some ('.' :: rest.takeWhile isWordChar, rest.dropWhile isWordChar)
          else none
        | [] => none
      else none

/-- Try to match the whole e-mail pattern at the head of the list; returns
    (matched characters, remainder after the match). -/
def emailMatchAt (cs : List Char) : Option (List Char × List Char) :=
  let r1 := cs.takeWhile isEmailChar
  if r1.isEmpty then none
  else
    match cs.dropWhile isEmailChar with
    | '@' :: afterAt =>
      let r2 := afterAt.takeWhile isEmailChar
      let tailRun := afterAt.dropWhile isEmailChar
      match r2 with
      | [] => none
      | c0 :: restRun =>
        match domainSplitAux restRun with
        | some (m, lft) => some (r1 ++ '@' :: c0 :: m, lft ++ tailRun)
        | none => none
    | _ => none

/-- re.search: leftmost match.  Returns (before, match, after). -/
def emailSearchAux : List Char → Option (List Char × List Char × List Char)
  | [] => none
  | c :: rest =>
    match emailMatchAt (c :: rest) with
    | some (m, after) => some ([], m, after)
    | none =>
      match emailSearchAux rest with
      | some (b, m, a) => some (c :: b, m, a)
      | none => none

/-- re.sub(pattern, '', line): delete every match, scanning left to right.
    The fuel starts at the length of the list; every match removes at least
    one character, so the fuel cannot run out before the list does. -/
def emailSubFuel : Nat → List Char → List Char
  | 0, cs => cs
  | Nat.succ n, cs =>
    match emailSearchAux cs with
    | none => cs
    | some (b, _, a) => b ++ emailSubFuel n a

def emailSub (cs : List Char) : List Char := emailSubFuel cs.length cs

/-- email_match.group(0) if a match exists, else the empty string. -/
def emailOf (line : String) : String :=
  match emailSearchAux line.data with
  | some (_, m, _) => ⟨m⟩
  | none => ""

/-! ### The renderer's markup-escape step (LatexConverter.clean_latex_text) -/

/-- clean_latex_text of converter.py: the chained str.replace calls, in
    source order, the backslash replacement last. -/
def clean_latex_text (text : String) : String :=
  let text := strReplace text "&" "\\&"
  let text := strReplace text "%" "\\%"
  let text := strReplace text "$" "\\$"
  let text := strReplace text "#" "\\#"
  let text := strReplace text "_" "\\_"
  let text := strReplace text "\x7b" "\\\x7b"
  let text := strReplace text "\x7d" "\\\x7d"
  let text := strReplace text "~" "\\textasciitilde"
  let text := strReplace text "^" "\\textasciicircum"
  let text := strReplace text "\\" "\\textbackslash"
  text

/-! ### The renderer's reference de-duplication (format_references) -/

structure Reference where
  id : String
  citation : String
deriving DecidableEq, Repr

/-- The de-duplication loop of format_references: keep a reference when its
    citation text has not been seen yet. -/
def dedupAux (seen : List String) : List Reference → List Reference
  | [] => []
  | r :: rest =>
    if r.citation ∈ seen then dedupAux seen rest
    else r :: dedupAux (r.citation :: seen) rest

def dedupRefs (refs : List Reference) : List Reference := dedupAux [] refs

/-- format_references of converter.py. -/
def format_references (refs : List Reference) : String :=
  if refs.isEmpty then ""
  else
    joinWith "\n"
      ((dedupRefs refs).map fun r =>
        "\\bibitem\x7bref" ++ r.id ++ "\x7d " ++ clean_latex_text r.citation)

/-! ### The styled-document (docx) input and output model -/

/-- A docx paragraph: its text and the name of its style. -/
structure Para where
  text : String
  style : String
deriving DecidableEq, Repr

/-- One relationship of doc.part.rels, reduced to what the code reads:
    whether its reltype is IMAGE, the image bytes (abstracted to a Nat),
    whether PIL can open and save them, and img.format. -/
structure Rel where
  isImage : Bool
  blob : Nat
  imgOk : Bool
  fmt : Option String
deriving DecidableEq, Repr

structure DocxDoc where
  paragraphs : List Para
  tables : List (List (List String))
  rels : List Rel
deriving DecidableEq, Repr

structure Author where
  name : String
  role : String
  affiliation : String
  email : String
deriving DecidableEq, Repr

/-- The metadata-figure record returned by save_image. -/
structure FigInfo where
  id : String
  filename : String
  caption : String
  path : String
deriving DecidableEq, Repr

structure TableData where
  label : String
  header : List String
  rows : List (List String)
deriving DecidableEq, Repr

/-- The tagged content nodes of a section. -/
inductive Content where
  | paragraph : String → Content
  | figure : (label caption path : String) → Content
  | list : List String → Content
  | table : (label : String) → List String → List (List String) → Content
  | subsection : String → List Content → Content

structure Sec where
  heading : String
  content : List Content

structure Metadata where
  title : String
  authors : List Author
  abstract : String
  keywords : List String
  figures : List FigInfo

/-- The output of extract_docx, plus the modelled file-system side effect:
    the (path, image bytes) pairs written, in write order. -/
structure DocxResult where
  metadata : Metadata
  body : List Sec
  references : List Reference
  tables : List TableData
  saved : List (String × Nat)

/-! ### Style-based predicates of extract_docx -/

/-- is_heading: style name, lowercased, starts with 'heading'. -/
def is_heading (p : Para) : Bool :=
  listPrefixTest "heading".data (lowerList p.style.data)

/-- get_heading_level: re.match(r'heading\s*(\d+)') on the lowercased style
    name; 1 when the pattern does not match. -/
def get_heading_level (p : Para) : Nat :=
  let low := lowerList p.style.data
  if listPrefixTest "heading".data low then
    let rest := (low.drop 7).dropWhile isWs
    let digits := rest.takeWhile Char.isDigit
    if digits.isEmpty then 1 else digitsVal digits
  else 1

/-- re.match(r'abstract', text, re.I). -/
def matchAbstract (text : String) : Bool :=
  ciPrefixTest "abstract".data text.data

/-- re.match(r'(keywords|key terms|index terms)\s*[:.]?', text, re.I):
    the suffix is optional, so this is a prefix test on the alternation. -/
def matchKeywords (text : String) : Bool :=
  ciPrefixTest "keywords".data text.data ||
  ciPrefixTest "key terms".data text.data ||
  ciPrefixTest "index terms".data text.data

/-- re.match(r'references?', text, re.I): the final s is optional, so this
    is a case-insensitive prefix test on 'reference'. -/
def matchRefs (text : String) : Bool :=
  ciPrefixTest "reference".data text.data

/-- re.match(r'(?:figure|fig)[\s\.]*(\d+)[\s:\.-]+(.*)', text, re.I),
    returning (group 1, group 2 stripped) as used at the call site.
    The character classes are pairwise disjoint from the digit class, so
    maximal munch is faithful inside one alternative; the two alternatives
    are tried in order, 'figure' first. -/
def figSepChar (c : Char) : Bool := isWs c || c == ':' || c == '.' || c == '-'

def figMatchFrom (rest : List Char) : Option (String × String) :=
  let r1 := rest.dropWhile (fun c => isWs c || c == '.')
  let digits := r1.takeWhile Char.isDigit
  if digits.isEmpty then none
  else
    let r2 := (r1.dropWhile Char.isDigit)
    if (r2.takeWhile figSepChar).isEmpty then none
    else some (⟨digits⟩, stripStr ⟨r2.dropWhile figSepChar⟩)

def figMatch (text : String) : Option (String × String) :=
  match ciPrefixDrop "figure".data text.data with
  | some rest =>
    match figMatchFrom rest with
    | some r => some r
    | none =>
      match ciPrefixDrop "fig".data text.data with
      | some rest2 => figMatchFrom rest2
      | none => none
  | none =>
    match ciPrefixDrop "fig".data text.data with
    | some rest2 => figMatchFrom rest2
    | none => none

/-! ### The author-block line parser of extract_docx -/

/-- The stripped parts after removing e-mails and splitting on , and ; . -/
def authorParts (line : String) : List String :=
  (splitCommaSemi (stripChars (emailSub line.data))).map (fun g => ⟨stripChars g⟩)

/-- Lines 76-94 of extractors.py, for one author-block line. -/
def parse_author_line (line : String) : Author :=
  let email := emailOf line
  let author_clean : String := ⟨stripChars (emailSub line.data)⟩
  let parts := authorParts line
  if parts.length ≥ 2 then
    { name := parts.getD 0 ""
      role := if parts.length > 2 then parts.getD 1 "" else ""
      affiliation :=
        if parts.length > 2 then joinWith ", " (parts.drop 2) else parts.getD 1 ""
      email := email }
  else
    { name := author_clean, role := "", affiliation := "", email := email }

/-! ### The paragraph phases of extract_docx -/

/-- Leading blank paragraphs are skipped; the first non-blank paragraph is
    the title. -/
def titlePhase (ps : List Para) : String × List Para :=
  match ps.dropWhile (fun p => stripStr p.text == "") with
  | [] => ("", [])
  | p :: rest => (clean_text p.text, rest)

/-- The author block: non-blank paragraphs until a line matching 'abstract'
    or a heading paragraph. -/
def authorPhase : List Para → List String × List Para
  | [] => ([], [])
  | p :: rest =>
    let text := clean_text p.text
    if text = "" then authorPhase rest
    else if matchAbstract text || is_heading p then ([], p :: rest)
    else
      let (blk, rem) := authorPhase rest
      (text :: blk, rem)

/-- Keywords of one line: split on , and ; , strip, drop empties. -/
def splitKeywords (text : String) : List String :=
  ((splitCommaSemi text.data).map (fun g => ⟨stripChars g⟩)).filter (fun k => k ≠ "")

structure AbsKwOut where
  rest : List Para
  abstract : String
  keywords : List String
deriving Repr

/-- The abstract/keywords loop (lines 96-139).  The Python loop re-examines
    the current paragraph after force-closing on a heading; since the
    'abstract' prefix test already failed for that same text, the re-run
    falls through to the final break, which is inlined here. -/
def absKwLoop : List Para → Bool → Bool → List String → String → List String → AbsKwOut
  | [], _, _, _, abstract, kws => ⟨[], abstract, kws⟩
  | p :: rest, inA, inK, absLines, abstract, kws =>
    let text := clean_text p.text
    if text = "" then absKwLoop rest inA inK absLines abstract kws
    else if matchAbstract text then absKwLoop rest true inK absLines abstract kws
    else if inA && matchKeywords text then
      absKwLoop rest false true absLines (joinWith " " absLines) kws
    else if inA then
      if is_heading p then ⟨p :: rest, joinWith " " absLines, kws⟩
      else absKwLoop rest inA inK (absLines ++ [text]) abstract kws
    else if inK then
      if is_heading p then ⟨p :: rest, abstract, kws⟩
      else absKwLoop rest inA inK absLines abstract (kws ++ splitKeywords text)
    else ⟨p :: rest, abstract, kws⟩

def absKwPhase (ps : List Para) : AbsKwOut := absKwLoop ps false false [] "" []

/-! ### The body pass of extract_docx -/

/-- save_image (lines 39-55): img.format lowercased, 'png' when absent. -/
def extOf (r : Rel) : String :=
  match r.fmt with
  | some f => lowerStr f
  | none => "png"

/-- save_image returns the metadata-figure record, or None when PIL fails;
    the caption argument defaults to 'Figure index' when falsy. -/
def save_image (r : Rel) (index : Nat) (caption : String) : Option FigInfo :=
  if r.imgOk then
    let filename := "figure_" ++ toString index ++ "." ++ extOf r
    some
      { id := "fig_" ++ toString index
        filename := filename
        caption := if caption = "" then "Figure " ++ toString index else caption
        path := "extracted_images/" ++ filename }
  else none

structure OpenSub where
  heading : String
  items : List Content

structure OpenSec where
  heading : String
  done : List Content
  sub : Option OpenSub

structure BodySt where
  body : List Sec
  cur : Option OpenSec
  figCount : Nat
  figs : List FigInfo
  saved : List (String × Nat)

def closeSub : Option OpenSub → List Content
  | none => []
  | some sb => [Content.subsection sb.heading sb.items]

def closeSec (s : OpenSec) : Sec := ⟨s.heading, s.done ++ closeSub s.sub⟩

/-- body plus the open section flushed, as after the loop (lines 241-242). -/
def flushCur (st : BodySt) : List Sec :=
  st.body ++ (match st.cur with | none => [] | some s => [closeSec s])

/-- The figure branch appends to the open subsection, else to the open
    section, else drops the item (the code has no else branch there). -/
def pushFig (cur : Option OpenSec) (item : Content) : Option OpenSec :=
  match cur with
  | none => none
  | some s =>
    match s.sub with
    | some sb => some ⟨s.heading, s.done, some ⟨sb.heading, sb.items ++ [item]⟩⟩
    | none => some ⟨s.heading, s.done ++ [item], none⟩

/-- The container for plain text: a section 'Introduction' is synthesized
    when none is open. -/
def ensureSec (cur : Option OpenSec) : OpenSec :=
  match cur with
  | some s => s
  | none => ⟨"Introduction", [], none⟩

/-- Apply an update to the content list of the active container (the open
    subsection when one exists, else the open section). -/
def appendContent (s : OpenSec) (mk : List Content → List Content) : OpenSec :=
  match s.sub with
  | some sb => ⟨s.heading, s.done, some ⟨sb.heading, mk sb.items⟩⟩
  | none => ⟨s.heading, mk s.done, none⟩

/-- Append a list item: extend the trailing List node when there is one,
    otherwise start a new List node (lines 225-233). -/
def listPush : List Content → String → List Content
  | [], it => [Content.list [it]]
  | c :: rest, it =>
    match rest with
    | [] =>
      match c with
      | Content.list items => [Content.list (items ++ [it])]
      | other => [other, Content.list [it]]
    | r :: rs => c :: listPush (r :: rs) it

def bulletChar (c : Char) : Bool := c == '•' || c == '-' || c == '*'

/-- text.startswith(('•', '-', '*')). -/
def startsBullet (text : String) : Bool :=
  match text.data with
  | c :: _ => bulletChar c
  | [] => false

/-- text.lstrip('•-* ').strip(). -/
def listItemText (text : String) : String :=
  ⟨stripChars (text.data.dropWhile (fun c => bulletChar c || c == ' '))⟩

/-- style name lowercased starts with 'list'. -/
def isListStyle (p : Para) : Bool :=
  listPrefixTest "list".data (lowerList p.style.data)

/-- One iteration of the body loop (lines 148-239) on a non-consumed
    paragraph, with the cleaned text passed explicitly; firstImg is the
    first IMAGE relationship of doc.part.rels. -/
def bodyStepText (firstImg : Option Rel) (p : Para) (text : String) (st : BodySt) : BodySt :=
  if text = "" then st
  else if is_heading p then
    if get_heading_level p = 1 then
      { st with body := flushCur st, cur := some ⟨text, [], none⟩ }
    else if get_heading_level p = 2 then
      match st.cur with
      | some s =>
        { st with cur := some ⟨s.heading, s.done ++ closeSub s.sub, some ⟨text, []⟩⟩ }
      | none =>
        { st with cur := some ⟨"Untitled Section", [], some ⟨text, []⟩⟩ }
    else st
  else
    match figMatch text with
    | some (num, cap) =>
      match firstImg with
      | some r =>
        match save_image r st.figCount ("Figure " ++ num ++ ": " ++ cap) with
        | some info =>
          { st with
            figCount := st.figCount + 1
            figs := st.figs ++ [info]
            saved := st.saved ++ [(info.path, r.blob)]
            cur := pushFig st.cur (Content.figure ("Fig" ++ num) cap info.path) }
        | none => st
      | none => st
    | none =>
      if isListStyle p || startsBullet text then
        { st with cur := some (appendContent (ensureSec st.cur)
            (fun c => listPush c (listItemText text))) }
      else
        { st with cur := some (appendContent (ensureSec st.cur)
            (fun c => c ++ [Content.paragraph text])) }

def bodyStep (firstImg : Option Rel) (p : Para) (st : BodySt) : BodySt :=
  bodyStepText firstImg p (clean_text p.text) st

def bodyLoop (firstImg : Option Rel) : List Para → BodySt → BodySt
  | [], st => st
  | p :: rest, st => bodyLoop firstImg rest (bodyStep firstImg p st)

/-! ### The table pass of extract_docx (lines 244-266) -/

/-- Append a content node to the last section of body; synthesize a
    'Tables' section when body is empty. -/
def appendToLastSec (node : Content) : List Sec → List Sec
  | [] => [⟨"Tables", [node]⟩]
  | [s] => [⟨s.heading, s.content ++ [node]⟩]
  | s :: rest => s :: appendToLastSec node rest

/-- Tables with at least one row: first row is the header, the rest the
    data rows; appended both to the flat list and into body. -/
def tableLoop : List (List (List String)) → List Sec → List TableData → List Sec × List TableData
  | [], body, tbls => (body, tbls)
  | raw :: rest, body, tbls =>
    match raw with
    | [] => tableLoop rest body tbls
    | hrow :: rrows =>
      let t : TableData :=
        ⟨"Table" ++ toString (tbls.length + 1),
         hrow.map clean_text,
         rrows.map (fun row => row.map clean_text)⟩
      tableLoop rest (appendToLastSec (Content.table t.label t.header t.rows) body)
        (tbls ++ [t])

/-! ### The reference pass of extract_docx (lines 268-287) -/

/-- Index of the first paragraph matching 'references?'. -/
def findRefIdx : List Para → Option Nat
  | [] => none
  | p :: rest =>
    if matchRefs (clean_text p.text) then some 0
    else (findRefIdx rest).map (fun n => n + 1)

def collectRefs : List Para → Nat → List Reference
  | [], _ => []
  | p :: rest, n =>
    let text := clean_text p.text
    if text = "" then collectRefs rest n
    else if is_heading p then []
    else ⟨toString n, text⟩ :: collectRefs rest (n + 1)

/-- The reference pass; note the Python `if ref_section:` test, under which
    index 0 is falsy and disables the pass. -/
def refPhase (ps : List Para) : List Reference :=
  match findRefIdx ps with
  | none => []
  | some 0 => []
  | some (Nat.succ j) => collectRefs (ps.drop (j + 2)) 1

/-! ### extract_docx assembled -/

/-- The paragraphs that reach the body pass. -/
def bodyParas (d : DocxDoc) : List Para :=
  (absKwPhase (authorPhase (titlePhase d.paragraphs).2).2).rest

/-- The body-pass state reached from a document. -/
def docxBodySt (d : DocxDoc) : BodySt :=
  bodyLoop (d.rels.find? (fun r => r.isImage)) (bodyParas d) ⟨[], none, 1, [], []⟩

def extract_docx (d : DocxDoc) : DocxResult :=
  let tp := titlePhase d.paragraphs
  let ap := authorPhase tp.2
  let akw := absKwPhase ap.2
  let st := docxBodySt d
  let tl := tableLoop d.tables (flushCur st) []
  { metadata := ⟨tp.1, ap.1.map parse_author_line, akw.abstract, akw.keywords, st.figs⟩
    body := tl.1
    references := refPhase d.paragraphs
    tables := tl.2
    saved := st.saved }

/-! ### The paginated-document (pdf) input model -/

/-- A text block of page.get_text("blocks"):
    (x0, y0, x1, y1, text, block_no, block_type). -/
structure PdfBlock where
  x0 : Int
  y0 : Int
  x1 : Int
  y1 : Int
  text : String
  blockNo : Nat
  blockType : Nat
deriving DecidableEq, Repr

/-- A table found by pdfplumber: its bounding box top and bottom edges and
    the row data the code ends up with after extract()/extract_table() and
    the falsy coercion (an empty list when both fail or yield nothing). -/
structure PdfTable where
  top : Int
  bottom : Int
  data : List (List String)
deriving DecidableEq, Repr

/-- An embedded image: its bytes (abstracted to a Nat), its extension, and
    whether the file-system write of those bytes succeeds. -/
structure PdfImage where
  blob : Nat
  ext : String
  writeOk : Bool
deriving DecidableEq, Repr

structure PdfPage where
  blocks : List PdfBlock
  tables : List PdfTable
  images : List PdfImage
deriving DecidableEq, Repr

structure PdfDoc where
  pages : List PdfPage
deriving DecidableEq, Repr

/-- The output of extract_pdf; authors, abstract and keywords are always
    empty in the code, and references is never touched after its
    initialisation.  saved models the image files written. -/
structure PdfFig where
  label : String
  caption : String
  content : String
deriving DecidableEq, Repr

structure PdfResult where
  title : String
  authors : List Author
  abstract : String
  keywords : List String
  figures : List PdfFig
  body : List Content
  references : List Reference
  tables : List TableData
  saved : List (String × Nat)

/-! ### Sorting and merging of page items -/

inductive MItem where
  | table : Nat → PdfTable → MItem
  | text : PdfBlock → MItem

def mKey : MItem → Int
  | .table _ t => t.top
  | .text b => b.y0

/-- Stable insertion: a new element goes after every element with a key
    less than or equal to its own, as with Python's stable list.sort. -/
def insSorted {α : Type} (key : α → Int) (x : α) : List α → List α
  | [] => [x]
  | y :: ys => if key x < key y then x :: y :: ys else y :: insSorted key x ys

def stableSortBy {α : Type} (key : α → Int) (l : List α) : List α :=
  l.foldl (fun acc x => insSorted key x acc) []

def enumFrom {α : Type} (n : Nat) : List α → List (Nat × α)
  | [] => []
  | x :: xs => (n, x) :: enumFrom (n + 1) xs

/-! ### Per-line transformations of extract_pdf -/

/-- re.search(r'(\S+@\S+)', text): the match is the first whitespace-free
    run that contains an @ preceded and followed by at least one further
    character of the run, and it spans that whole run. -/
def atNotLast : List Char → Bool
  | c :: d :: rest => c == '@' || atNotLast (d :: rest)
  | _ => false

def validEmailRun : List Char → Bool
  | _ :: rest => atNotLast rest
  | [] => false

/-- Fuel as in replaceFuel: every step consumes at least one character, so
    a fuel equal to the length of the list never runs out. -/
def pdfEmailSearchFuel : Nat → List Char → Option (List Char × List Char × List Char)
  | _, [] => none
  | 0, _ => none
  | Nat.succ n, c :: rest =>
    if isWs c then
      match pdfEmailSearchFuel n rest with
      | some (b, m, a) => some (c :: b, m, a)
      | none => none
    else
      let run := c :: rest.takeWhile (fun x => !isWs x)
      let after := rest.dropWhile (fun x => !isWs x)
      if validEmailRun run then some ([], run, after)
      else
        match pdfEmailSearchFuel n after with
        | some (b, m, a) => some (run ++ b, m, a)
        | none => none

def pdfEmailSearch (cs : List Char) : Option (List Char × List Char × List Char) :=
  pdfEmailSearchFuel cs.length cs

/-- re.sub(r'^[••\-]\s*', '- ', text): one leading bullet glyph and
    the whitespace after it become '- '. -/
def bulletSub (text : String) : String :=
  match text.data with
  | c :: rest =>
    if c == '•' || c == '-' then ⟨'-' :: ' ' :: rest.dropWhile isWs⟩ else text
  | [] => text

/-- re.match(r'fig\s*\d*\s*:', text, re.I): digits are optional. -/
def pdfFigCheck (text : String) : Bool :=
  match ciPrefixDrop "fig".data text.data with
  | some rest =>
    match ((rest.dropWhile isWs).dropWhile Char.isDigit).dropWhile isWs with
    | ':' :: _ => true
    | _ => false
  | none => false

/-- Case-insensitive re.sub of a fixed word, scanning left to right; fuel
    as in replaceFuel. -/
def ciReplaceFuel (pat rep : List Char) : Nat → List Char → List Char
  | _, [] => []
  | 0, cs => cs
  | Nat.succ n, c :: rest =>
    if ciPrefixTest pat (c :: rest) then
      rep ++ ciReplaceFuel pat rep n (List.drop pat.length (c :: rest))
    else c :: ciReplaceFuel pat rep n rest

/-- re.sub(r'paractice', 'practice', text, flags=re.I). -/
def typoSub (text : String) : String :=
  ⟨ciReplaceFuel "paractice".data "practice".data text.data.length text.data⟩

/-- The caption-group part of sanitize_filename:
    re.match(r'fig\s*\d*\s*:\s*(.+)', text, re.I).  When only whitespace
    follows the colon, the greedy \s* backs off one character so that (.+)
    can still match; with nothing after the colon the match fails. -/
def sanFigStrip (cs : List Char) : Option (List Char) :=
  match ciPrefixDrop "fig".data cs with
  | some rest =>
    match ((rest.dropWhile isWs).dropWhile Char.isDigit).dropWhile isWs with
    | ':' :: afterColon =>
      let grp := afterColon.dropWhile isWs
      if grp.isEmpty then
        match afterColon.getLast? with
        | some c => some [c]
        | none => none
      else some grp
    | _ => none
  | none => none

def sanitize_filename (text : String) : String :=
  let ct :=
    match sanFigStrip text.data with
    | some g => g
    | none => text.data
  let ct := stripChars (lowerList ct)
  let ct := ct.filter (fun c => isWordChar c || c == '-' || c == '_' || c == '.' || c == ' ')
  let ct := ct.map (fun c => if c == ' ' then '_' else c)
  if ct.isEmpty then "image" else ⟨ct⟩

/-! ### Page processing of extract_pdf -/

structure PdfSt where
  output : List String
  figures : List PdfFig
  tables : List TableData
  saved : List (String × Nat)

structure PageSt where
  g : PdfSt
  used : List Bool
  seen : List Nat

def firstUnused : List Bool → Option Nat
  | [] => none
  | b :: rest => if b then (firstUnused rest).map (fun n => n + 1) else some 0

def pushOut (st : PageSt) (line : String) : PageSt :=
  { st with g := { st.g with output := st.g.output ++ [line] } }

/-- One merged item (lines 336-397).  A failing image write raises an
    uncaught exception, modelled as Except.error. -/
def processItem (tbs : List PdfTable) (images : List PdfImage) (st : PageSt) :
    MItem → Except Unit PageSt
  | .table idx t =>
    if idx ∈ st.seen then .ok st
    else
      let st := { st with seen := st.seen ++ [idx] }
      match t.data with
      | [] => .ok st
      | hrow :: rrows =>
        .ok { st with g := { st.g with tables := st.g.tables ++
          [⟨"Table" ++ toString (st.g.tables.length + 1), hrow, rrows⟩] } }
  | .text b =>
    if b.blockType ≠ 0 then .ok st
    else
      let text := stripStr b.text
      let skip := tbs.any (fun t => decide (t.top ≤ b.y0) && decide (b.y1 ≤ t.bottom))
      if skip || text = "" then .ok st
      else
        let emailHit :=
          if strStartsWith text "Email:" then none else pdfEmailSearch text.data
        match emailHit with
        | some (before, run, after) =>
          let st := if stripChars before ≠ [] then pushOut st ⟨stripChars before⟩ else st
          let st := pushOut st ⟨run⟩
          .ok (if stripChars after ≠ [] then pushOut st ⟨stripChars after⟩ else st)
        | none =>
          let text := bulletSub text
          let text := if pdfFigCheck text then typoSub text else text
          if pdfFigCheck text then
            match firstUnused st.used with
            | some idx =>
              match images.get? idx with
              | some img =>
                if img.writeOk then
                  let fname := sanitize_filename text ++ "." ++ img.ext
                  let fpath := "extracted_images/" ++ fname
                  .ok { st with
                    used := st.used.set idx true
                    g := { st.g with
                      saved := st.g.saved ++ [(fpath, img.blob)]
                      figures := st.g.figures ++
                        [⟨"Fig" ++ toString (st.g.figures.length + 1), text, fpath⟩] } }
                else .error ()
              | none => .ok st
            | none => .ok (pushOut st text)
          else .ok (pushOut st text)

def processItems (tbs : List PdfTable) (images : List PdfImage) :
    List MItem → PageSt → Except Unit PageSt
  | [], st => .ok st
  | it :: rest, st =>
    match processItem tbs images st it with
    | .error e => .error e
    | .ok st2 => processItems tbs images rest st2

/-- Write out the images of the page that no caption consumed
    (lines 398-409). -/
def flushImages (pageNum : Nat) (images : List PdfImage) :
    Nat → List Bool → PdfSt → Except Unit PdfSt
  | _, [], g => .ok g
  | idx, b :: rest, g =>
    if b then flushImages pageNum images (idx + 1) rest g
    else
      match images.get? idx with
      | some img =>
        if img.writeOk then
          let fname := "image_" ++ toString pageNum ++ "_" ++ toString (idx + 1)
            ++ "." ++ img.ext
          let fpath := "extracted_images/" ++ fname
          flushImages pageNum images (idx + 1) rest
            { g with
              saved := g.saved ++ [(fpath, img.blob)]
              figures := g.figures ++
                [⟨"Fig" ++ toString (g.figures.length + 1), fname, fpath⟩] }
        else .error ()
      | none => flushImages pageNum images (idx + 1) rest g

def processPage (pageNum : Nat) (page : PdfPage) (g : PdfSt) : Except Unit PdfSt :=
  let blocksSorted := stableSortBy (fun b => b.y0) page.blocks
  let combined := (enumFrom 0 page.tables).map (fun it => MItem.table it.1 it.2)
    ++ blocksSorted.map MItem.text
  let items := stableSortBy mKey combined
  match processItems page.tables page.images items
      ⟨g, List.replicate page.images.length false, []⟩ with
  | .error e => .error e
  | .ok st => flushImages pageNum page.images 0 st.used st.g

def processPages : Nat → List PdfPage → PdfSt → Except Unit PdfSt
  | _, [], g => .ok g
  | n, pg :: rest, g =>
    match processPage n pg g with
    | .error e => .error e
    | .ok g2 => processPages (n + 1) rest g2

/-- Collapse runs of blank lines to a single empty line (lines 411-420). -/
def collapseBlanks : Bool → List String → List String
  | _, [] => []
  | prev, l :: rest =>
    if stripStr l = "" then
      if prev then collapseBlanks true rest
      else "" :: collapseBlanks true rest
    else l :: collapseBlanks false rest

/-- extract_pdf assembled (lines 291-440); the references variable is
    initialised to the empty list and never assigned again. -/
def extract_pdf (d : PdfDoc) : Except Unit PdfResult :=
  match processPages 1 d.pages ⟨[], [], [], []⟩ with
  | .error e => .error e
  | .ok st =>
    let cleaned := collapseBlanks false st.output
    .ok
      { title := match cleaned with | [] => "" | t :: _ => t
        authors := []
        abstract := ""
        keywords := []
        figures := st.figures
        body := (match cleaned with | [] => [] | _ :: rest => rest).filterMap
          (fun l => if l = "" then none else some (Content.paragraph l))
        references := []
        tables := st.tables
        saved := st.saved }

/-! ### Concrete documents used by the claim theorems -/

/-- The scenario input of the specification, as a styled document. -/
def c5doc : DocxDoc :=
  ⟨[⟨"Title", "Normal"⟩, ⟨"Jane Doe, PI, MIT", "Normal"⟩, ⟨"Abstract", "Normal"⟩,
    ⟨"This is the abstract.", "Normal"⟩, ⟨"Keywords", "Normal"⟩,
    ⟨"alpha, beta", "Normal"⟩, ⟨"Intro", "Heading 1"⟩, ⟨"Hello world.", "Normal"⟩],
   [], []⟩

/-- Two figure paragraphs and two image relationships. -/
def c2doc : DocxDoc :=
  ⟨[⟨"T", "Normal"⟩, ⟨"S", "Heading 1"⟩, ⟨"Figure 1: a", "Normal"⟩,
    ⟨"Figure 2: b", "Normal"⟩],
   [], [⟨true, 1, true, some "PNG"⟩, ⟨true, 2, true, some "JPEG"⟩]⟩

/-- A level-2 heading with no level-1 heading before it. -/
def c3doc : DocxDoc :=
  ⟨[⟨"Title", "Normal"⟩, ⟨"Sub", "Heading 2"⟩, ⟨"text", "Normal"⟩], [], []⟩

/-- A document whose very first paragraph matches 'references?'. -/
def c10doc : DocxDoc :=
  ⟨[⟨"References", "Normal"⟩, ⟨"Doe 2020.", "Normal"⟩], [], []⟩

/-- One pdf page holding only a detected table. -/
def c6pdf : PdfDoc := ⟨[⟨[], [⟨0, 10, [["h"], ["r"]]⟩], []⟩]⟩

/-- One pdf page with an embedded image whose file write fails and no
    caption line: the unbound-image flush hits the failing write. -/
def c7pdfA : PdfDoc := ⟨[⟨[], [], [⟨5, "png", false⟩]⟩]⟩

/-- One pdf page with a caption line binding an image whose write fails. -/
def c7pdfB : PdfDoc :=
  ⟨[⟨[⟨0, 0, 10, 5, "fig 1: pic", 0, 0⟩], [], [⟨7, "png", false⟩]⟩]⟩

/-- An empty pdf document. -/
def c9pdf : PdfDoc := ⟨[]⟩

/-- A docx document with one table, used to witness the table invariant. -/
def c6doc : DocxDoc :=
  ⟨[⟨"T", "Normal"⟩, ⟨"S", "Heading 1"⟩, ⟨"x", "Normal"⟩],
   [[["h1", "h2"], ["a", "b"]]], []⟩

/-! ### Claim C1 -/

/-- Claim C1 (code bug): clean_latex_text escapes the backslash last, so
    the backslash introduced by escaping an ampersand is itself rewritten
    and the ampersand ends up unescaped: the input consisting of the single
    character & yields the string backslash-textbackslash-ampersand, in
    which & occurs bare, contradicting the claimed escape round-trip. -/
theorem claim1_escape_order_bug :
    clean_latex_text "&" = "\\textbackslash&" ∧
    '&' ∈ (clean_latex_text "&").data := by
  exact ⟨rfl, by decide⟩

/-! ### Claim C9 -/

/-- Claim C9: extract_pdf initialises the reference list to the empty
    sequence and never assigns it again, so every successful extraction
    returns no references. -/
theorem claim9_pdf_references_empty (pd : PdfDoc) (r : PdfResult)
    (h : extract_pdf pd = Except.ok r) : r.references = [] := by
  unfold extract_pdf at h
  split at h
  · exact Except.noConfusion h
  · cases h
    rfl

/-- The result of extract_pdf on the empty paginated document. -/
def c9res : PdfResult := ⟨"", [], "", [], [], [], [], [], []⟩

/-- Witness for C9 at the empty paginated document. -/
theorem claim9_witness :
    extract_pdf c9pdf = Except.ok c9res ∧ c9res.references = [] := by
  exact ⟨rfl, claim9_pdf_references_empty c9pdf c9res rfl⟩

/-! ### Claim C10 -/

/-- Claim C10: the reference pass tests the found index with Python
    truthiness, so when the very first paragraph of the document matches
    'references?' the returned references are empty. -/
theorem claim10_first_para_references (d : DocxDoc) (p : Para) (ps : List Para)
    (hd : d.paragraphs = p :: ps) (hm : matchRefs (clean_text p.text) = true) :
    (extract_docx d).references = [] := by
  show refPhase d.paragraphs = []
  rw [hd]
  unfold refPhase findRefIdx
  rw [hm]
  rfl

/-- Witness for C10: a document starting with a References paragraph that
    is followed by a non-blank, non-heading citation line. -/
theorem claim10_witness :
    matchRefs (clean_text "References") = true ∧
    clean_text "Doe 2020." ≠ "" ∧
    is_heading ⟨"Doe 2020.", "Normal"⟩ = false ∧
    (extract_docx c10doc).references = [] := by
  refine ⟨by decide, by decide, by decide,
    claim10_first_para_references c10doc ⟨"References", "Normal"⟩
      [⟨"Doe 2020.", "Normal"⟩] rfl (by decide)⟩

/-! ### Claim C5 -/

/-- Counterexample to claim C5: on the specification's scenario input the
    author line 'Jane Doe, PI, MIT' splits into three parts, so the role is
    'PI' and the affiliation is 'MIT' and not, as claimed, an empty role
    with affiliation 'PI'. -/
theorem claim5_counterexample :
    (extract_docx c5doc).metadata.authors = [⟨"Jane Doe", "PI", "MIT", ""⟩] ∧
    (extract_docx c5doc).metadata.authors ≠ [⟨"Jane Doe", "", "PI", ""⟩] := by
  exact ⟨by decide, by decide⟩

/-- Claim C5 as amended: the scenario holds with the author parsed as a
    3-part split, name 'Jane Doe', role 'PI', affiliation 'MIT'; title,
    abstract, keywords and the single-section body are as claimed. -/
theorem claim5_amended_scenario :
    (extract_docx c5doc).metadata.title = "Title" ∧
    (extract_docx c5doc).metadata.authors = [⟨"Jane Doe", "PI", "MIT", ""⟩] ∧
    (extract_docx c5doc).metadata.abstract = "This is the abstract." ∧
    (extract_docx c5doc).metadata.keywords = ["alpha", "beta"] ∧
    (extract_docx c5doc).body = [⟨"Intro", [Content.paragraph "Hello world."]⟩] := by
  exact ⟨rfl, rfl, rfl, rfl, rfl⟩

/-! ### Claim C2 -/

/-- Counterexample to claim C2: with two image relationships carrying
    distinct blobs, two consecutive figure paragraphs both save the first
    relationship's blob; the consumed images are not distinct. -/
theorem claim2_counterexample :
    c2doc.rels.map Rel.blob = [1, 2] ∧
    (extract_docx c2doc).saved.map Prod.snd = [1, 1] ∧
    ¬ ((extract_docx c2doc).saved.map Prod.snd).Nodup := by
  exact ⟨by decide, by decide, by decide⟩

/-! ### Claim C8 -/

theorem dedupAux_sublist (refs : List Reference) :
    ∀ seen, (dedupAux seen refs).Sublist refs := by
  induction refs with
  | nil => intro seen; simp [dedupAux]
  | cons r rest ih =>
    intro seen
    unfold dedupAux
    split
    · exact (ih seen).cons r
    · exact (ih (r.citation :: seen)).cons₂ r

theorem dedupAux_filter_seen (refs : List Reference) :
    ∀ seen c, c ∈ seen →
      (dedupAux seen refs).filter (fun x => x.citation == c) = [] := by
  induction refs with
  | nil => intro seen c _; simp [dedupAux]
  | cons r rest ih =>
    intro seen c hc
    unfold dedupAux
    split
    · exact ih seen c hc
    · rename_i hnot
      have hne : (r.citation == c) = false := by
        refine beq_eq_false_iff_ne.mpr ?_
        intro he
        exact hnot (he ▸ hc)
      rw [List.filter_cons_of_neg (by simp [hne])]
      exact ih (r.citation :: seen) c (List.mem_cons_of_mem _ hc)

theorem dedupAux_filter_first (refs : List Reference) :
    ∀ seen c r, c ∉ seen →
      refs.find? (fun x => x.citation == c) = some r →
      (dedupAux seen refs).filter (fun x => x.citation == c) = [r] := by
  induction refs with
  | nil => intro seen c r _ hfind; simp at hfind
  | cons x rest ih =>
    intro seen c r hseen hfind
    by_cases hx : x.citation = c
    · have hpred : ((fun y : Reference => y.citation == c) x) = true := beq_iff_eq.mpr hx
      rw [List.find?_cons_of_pos (p := fun y : Reference => y.citation == c) _ hpred] at hfind
      cases hfind
      unfold dedupAux
      split
      · rename_i hmem
        exact absurd (hx ▸ hmem) hseen
      · rw [List.filter_cons_of_pos (by simp [hpred])]
        rw [dedupAux_filter_seen rest (x.citation :: seen) c (hx ▸ List.mem_cons_self _ _)]
    · have hpred : (x.citation == c) = false := beq_eq_false_iff_ne.mpr hx
      rw [List.find?_cons_of_neg _ (by simp [hpred])] at hfind
      unfold dedupAux
      split
      · exact ih seen c r hseen hfind
      · rw [List.filter_cons_of_neg (by simp [hpred])]
        refine ih (x.citation :: seen) c r ?_ hfind
        intro hc
        rcases List.mem_cons.mp hc with h | h
        · exact hx h.symm
        · exact hseen h

/-- Claim C8: the renderer's bibliography keeps, for each citation text
    occurring among the references, exactly the first reference carrying
    it, in input order (dedupRefs is a sublist of the input), regardless of
    ids; and the specification's scenario of two identical citations with
    ids 1 and 2 renders a single bibitem entry. -/
theorem claim8_dedup :
    (∀ refs : List Reference,
      (dedupRefs refs).Sublist refs ∧
      ∀ c r, refs.find? (fun x => x.citation == c) = some r →
        (dedupRefs refs).filter (fun x => x.citation == c) = [r]) ∧
    format_references [⟨"1", "Foo, 2020"⟩, ⟨"2", "Foo, 2020"⟩] =
      "\\bibitem\x7bref1\x7d Foo, 2020" := by
  refine ⟨fun refs => ⟨dedupAux_sublist refs [], fun c r hfind => ?_⟩, rfl⟩
  exact dedupAux_filter_first refs [] c r (List.not_mem_nil c) hfind

/-- Witness for C8 at a concrete reference list with a duplicate citation
    under differing ids. -/
theorem claim8_witness :
    [(⟨"1", "A"⟩ : Reference), ⟨"2", "A"⟩, ⟨"3", "B"⟩].find?
        (fun x => x.citation == "A") = some ⟨"1", "A"⟩ ∧
    (dedupRefs [⟨"1", "A"⟩, ⟨"2", "A"⟩, ⟨"3", "B"⟩]).filter
        (fun x => x.citation == "A") = [⟨"1", "A"⟩] := by
  exact ⟨rfl, (claim8_dedup.1 [⟨"1", "A"⟩, ⟨"2", "A"⟩, ⟨"3", "B"⟩]).2 "A" ⟨"1", "A"⟩ rfl⟩

/-! ### Claim C4 -/

/-- Claim C4: for every author-block line, the e-mail is extracted by
    pattern and stripped; the remainder splits on commas and semicolons;
    with at least three parts, part 0 is the name, part 1 the role and the
    remaining parts joined with a comma the affiliation; with exactly two
    parts, part 1 is the affiliation and the role is empty; with fewer than
    two parts the whole (e-mail-stripped) line is the name.  The
    specification's scenario line parses as claimed. -/
theorem claim4_author_parse :
    (∀ line : String,
      ((authorParts line).length ≥ 3 → parse_author_line line =
        ⟨(authorParts line).getD 0 "", (authorParts line).getD 1 "",
         joinWith ", " ((authorParts line).drop 2), emailOf line⟩) ∧
      ((authorParts line).length = 2 → parse_author_line line =
        ⟨(authorParts line).getD 0 "", "", (authorParts line).getD 1 "", emailOf line⟩) ∧
      ((authorParts line).length < 2 → parse_author_line line =
        ⟨⟨stripChars (emailSub line.data)⟩, "", "", emailOf line⟩)) ∧
    parse_author_line "A. Smith, Editor, Dept X, Univ Y" =
      ⟨"A. Smith", "Editor", "Dept X, Univ Y", ""⟩ := by
  refine ⟨fun line => ⟨fun h3 => ?_, fun h2 => ?_, fun h1 => ?_⟩, by decide⟩
  · unfold parse_author_line
    rw [if_pos (by omega), if_pos (by omega), if_pos (by omega)]
  · unfold parse_author_line
    rw [if_pos (by omega), if_neg (by omega), if_neg (by omega)]
  · unfold parse_author_line
    rw [if_neg (by omega)]

/-- Witness for C4 at the specification's scenario line (three-part case). -/
theorem claim4_witness :
    (authorParts "A. Smith, Editor, Dept X, Univ Y").length ≥ 3 ∧
    parse_author_line "A. Smith, Editor, Dept X, Univ Y" =
      ⟨(authorParts "A. Smith, Editor, Dept X, Univ Y").getD 0 "",
       (authorParts "A. Smith, Editor, Dept X, Univ Y").getD 1 "",
       joinWith ", " ((authorParts "A. Smith, Editor, Dept X, Univ Y").drop 2),
       emailOf "A. Smith, Editor, Dept X, Univ Y"⟩ := by
  exact ⟨by decide,
    ((claim4_author_parse.1 "A. Smith, Editor, Dept X, Univ Y").1 (by decide))⟩

/-! ### Claim C2, amended part -/

/-- Every saved-image record produced by one body step carries the blob of
    the first IMAGE relationship, when it extends the list at all. -/
theorem bodyStep_saved (fi : Option Rel) (p : Para) (st : BodySt) :
    (bodyStep fi p st).saved = st.saved ∨
    ∃ r info, fi = some r ∧
      (bodyStep fi p st).saved = st.saved ++ [(FigInfo.path info, r.blob)] := by
  unfold bodyStep bodyStepText
  repeat' split
  all_goals first
    | (left; rfl)
    | (right; exact ⟨_, _, rfl, rfl⟩)

theorem bodyLoop_saved (fi : Option Rel) :
    ∀ (ps : List Para) (st : BodySt) (s : String × Nat),
      s ∈ (bodyLoop fi ps st).saved →
      s ∈ st.saved ∨ ∃ r : Rel, fi = some r ∧ s.2 = r.blob := by
  intro ps
  induction ps with
  | nil => intro st s hs; exact Or.inl hs
  | cons p rest ih =>
    intro st s hs
    rcases ih (bodyStep fi p st) s hs with hmem | hblob
    · rcases bodyStep_saved fi p st with heq | ⟨r, info, hfi, heq⟩
      · exact Or.inl (heq ▸ hmem)
      · rw [heq] at hmem
        rcases List.mem_append.mp hmem with h | h
        · exact Or.inl h
        · right
          refine ⟨r, hfi, ?_⟩
          rcases List.mem_singleton.mp h with rfl
          rfl
    · exact Or.inr hblob

/-- Claim C2 as amended: every figure paragraph that binds an image binds
    the first IMAGE relationship of the document, regardless of earlier
    consumption, so every image blob saved by the styled-document extractor
    is the first image relationship's blob. -/
theorem claim2_amended_first_rel (d : DocxDoc) (s : String × Nat)
    (hs : s ∈ (extract_docx d).saved) :
    ∃ r : Rel, d.rels.find? (fun x => x.isImage) = some r ∧ s.2 = r.blob := by
  have hs2 : s ∈ (docxBodySt d).saved := hs
  rcases bodyLoop_saved (d.rels.find? (fun x => x.isImage)) (bodyParas d)
      ⟨[], none, 1, [], []⟩ s hs2 with h | h
  · exact absurd h (List.not_mem_nil s)
  · exact h

/-- Witness for C2's amended statement at the two-relationship document. -/
theorem claim2_witness :
    ("extracted_images/figure_2.png", 1) ∈ (extract_docx c2doc).saved ∧
    ∃ r : Rel, c2doc.rels.find? (fun x => x.isImage) = some r ∧
      (("extracted_images/figure_2.png", 1) : String × Nat).2 = r.blob := by
  exact ⟨by decide, claim2_amended_first_rel c2doc _ (by decide)⟩

/-! ### Claim C7 -/

/-- Counterexample to claim C7: in the paginated extractor a failing image
    write is not caught; the whole extraction call fails. -/
theorem claim7_counterexample : extract_pdf c7pdfA = Except.error () := rfl

/-- When the first IMAGE relationship cannot be decoded or saved, a body
    step changes neither the figure metadata nor the saved files. -/
theorem bodyStep_failing_img (r : Rel) (p : Para) (st : BodySt)
    (hok : r.imgOk = false) :
    (bodyStep (some r) p st).figs = st.figs ∧
    (bodyStep (some r) p st).saved = st.saved := by
  unfold bodyStep bodyStepText
  repeat' split
  all_goals simp_all [save_image]

theorem bodyLoop_failing_img (r : Rel) (hok : r.imgOk = false) :
    ∀ (ps : List Para) (st : BodySt),
      (bodyLoop (some r) ps st).figs = st.figs ∧
      (bodyLoop (some r) ps st).saved = st.saved := by
  intro ps
  induction ps with
  | nil => intro st; exact ⟨rfl, rfl⟩
  | cons p rest ih =>
    intro st
    have hstep := bodyStep_failing_img r p st hok
    have hrec := ih (bodyStep (some r) p st)
    exact ⟨hrec.1.trans hstep.1, hrec.2.trans hstep.2⟩

/-- Claim C7 as amended: the styled-document extractor catches image
    decode/save failures per image and drops the figures, returning
    normally with no figure output; the paginated extractor does not catch
    image save failures, and a failing write aborts the extraction call,
    shown at a caption-bound failing image. -/
theorem claim7_amended :
    (∀ (d : DocxDoc) (r : Rel),
      d.rels.find? (fun x => x.isImage) = some r → r.imgOk = false →
      (extract_docx d).metadata.figures = [] ∧ (extract_docx d).saved = []) ∧
    extract_pdf c7pdfB = Except.error () := by
  refine ⟨fun d r hfind hok => ?_, rfl⟩
  have h := bodyLoop_failing_img r hok (bodyParas d) ⟨[], none, 1, [], []⟩
  constructor
  · show (docxBodySt d).figs = []
    unfold docxBodySt
    rw [hfind]
    exact h.1
  · show (docxBodySt d).saved = []
    unfold docxBodySt
    rw [hfind]
    exact h.2

/-- A docx document whose only image relationship cannot be saved. -/
def c7doc : DocxDoc :=
  ⟨[⟨"T", "Normal"⟩, ⟨"S", "Heading 1"⟩, ⟨"Figure 1: a", "Normal"⟩],
   [], [⟨true, 9, false, some "PNG"⟩]⟩

/-- Witness for C7's amended statement at a failing docx image. -/
theorem claim7_witness :
    c7doc.rels.find? (fun x => x.isImage) = some ⟨true, 9, false, some "PNG"⟩ ∧
    (extract_docx c7doc).metadata.figures = [] ∧ (extract_docx c7doc).saved = [] := by
  exact ⟨by decide, claim7_amended.1 c7doc ⟨true, 9, false, some "PNG"⟩ (by decide) rfl⟩

/-! ### Claim C6 -/

/-- The result of extract_pdf on the one-table page. -/
def c6res : PdfResult :=
  ⟨"", [], "", [], [], [], [], [⟨"Table1", ["h"], [["r"]]⟩], []⟩

/-- Counterexample to claim C6: the paginated extractor appends a detected
    table to the top-level tables list but the body stays empty; the table
    appears inside no Section of body. -/
theorem claim6_counterexample :
    extract_pdf c6pdf = Except.ok c6res ∧
    c6res.tables ≠ [] ∧ c6res.body = [] := by
  exact ⟨rfl, by decide, rfl⟩

def tableNode (t : TableData) : Content := Content.table t.label t.header t.rows

theorem appendToLastSec_keeps (node x : Content) :
    ∀ body : List Sec, (∃ sec, sec ∈ body ∧ x ∈ sec.content) →
      ∃ sec, sec ∈ appendToLastSec node body ∧ x ∈ sec.content := by
  intro body
  induction body with
  | nil =>
    rintro ⟨sec, hmem, _⟩
    exact absurd hmem (List.not_mem_nil sec)
  | cons s rest ih =>
    rintro ⟨sec, hmem, hx⟩
    cases rest with
    | nil =>
      rcases List.mem_singleton.mp hmem with rfl
      exact ⟨⟨sec.heading, sec.content ++ [node]⟩, List.mem_singleton.mpr rfl,
        List.mem_append_left _ hx⟩
    | cons t rest2 =>
      rcases List.mem_cons.mp hmem with rfl | hmem2
      · exact ⟨sec, List.mem_cons_self _ _, hx⟩
      · rcases ih ⟨sec, hmem2, hx⟩ with ⟨sec2, hmem3, hx2⟩
        exact ⟨sec2, List.mem_cons_of_mem _ hmem3, hx2⟩

theorem appendToLastSec_new (node : Content) :
    ∀ body : List Sec, ∃ sec, sec ∈ appendToLastSec node body ∧ node ∈ sec.content := by
  intro body
  induction body with
  | nil =>
    exact ⟨⟨"Tables", [node]⟩, List.mem_singleton.mpr rfl, List.mem_singleton.mpr rfl⟩
  | cons s rest ih =>
    cases rest with
    | nil =>
      exact ⟨⟨s.heading, s.content ++ [node]⟩, List.mem_singleton.mpr rfl,
        List.mem_append_right _ (List.mem_singleton.mpr rfl)⟩
    | cons t rest2 =>
      rcases ih with ⟨sec, hmem, hx⟩
      exact ⟨sec, List.mem_cons_of_mem _ hmem, hx⟩

theorem tableLoop_inv :
    ∀ (raws : List (List (List String))) (body : List Sec) (tbls : List TableData),
      (∀ t, t ∈ tbls → ∃ sec, sec ∈ body ∧ tableNode t ∈ sec.content) →
      ∀ t, t ∈ (tableLoop raws body tbls).2 →
        ∃ sec, sec ∈ (tableLoop raws body tbls).1 ∧ tableNode t ∈ sec.content := by
  intro raws
  induction raws with
  | nil => intro body tbls hinv t ht; exact hinv t ht
  | cons raw rest ih =>
    intro body tbls hinv t ht
    cases raw with
    | nil => exact ih body tbls hinv t ht
    | cons hrow rrows =>
      refine ih _ _ ?_ t ht
      intro t2 ht2
      rcases List.mem_append.mp ht2 with h | h
      · exact appendToLastSec_keeps _ _ body (hinv t2 h)
      · rcases List.mem_singleton.mp h with rfl
        exact appendToLastSec_new _ body

/-- Claim C6 as amended: in the styled-document extractor every table of
    the top-level tables list also appears as a content node of a Section
    of body (the last Section, or a synthesized Tables section); the
    paginated extractor instead keeps tables only in the top-level list and
    its body consists of paragraph nodes only. -/
theorem claim6_amended :
    (∀ (d : DocxDoc) (t : TableData), t ∈ (extract_docx d).tables →
      ∃ sec, sec ∈ (extract_docx d).body ∧ tableNode t ∈ sec.content) ∧
    (∀ (pd : PdfDoc) (r : PdfResult), extract_pdf pd = Except.ok r →
      ∀ c, c ∈ r.body → ∃ s, c = Content.paragraph s) := by
  constructor
  · intro d t ht
    refine tableLoop_inv d.tables (flushCur (docxBodySt d)) [] ?_ t ht
    intro t2 ht2
    exact absurd ht2 (List.not_mem_nil t2)
  · intro pd r h c hc
    unfold extract_pdf at h
    split at h
    · exact Except.noConfusion h
    · cases h
      rcases List.mem_filterMap.mp hc with ⟨l, _, hl⟩
      by_cases hz : l = ""
      · simp [hz] at hl
      · simp only [if_neg hz, Option.some.injEq] at hl
        exact ⟨l, hl.symm⟩

/-- Witness for C6's amended statement: the docx half at a document with
    one table, the pdf half at the one-table page. -/
theorem claim6_witness :
    ((⟨"Table1", ["h1", "h2"], [["a", "b"]]⟩ : TableData) ∈ (extract_docx c6doc).tables ∧
      ∃ sec, sec ∈ (extract_docx c6doc).body ∧
        tableNode ⟨"Table1", ["h1", "h2"], [["a", "b"]]⟩ ∈ sec.content) ∧
    (∀ c, c ∈ c6res.body → ∃ s, c = Content.paragraph s) := by
  constructor
  · refine ⟨by decide, claim6_amended.1 c6doc _ (by decide)⟩
  · exact claim6_amended.2 c6pdf c6res rfl

/-! ### Claim C3 -/

/-- A non-blank level-1 heading paragraph (blank paragraphs are consumed
    before the style is inspected). -/
def isH1p (p : Para) : Bool :=
  if clean_text p.text = "" then false
  else if is_heading p then
    if get_heading_level p = 1 then true else false
  else false

/-- A non-blank level-2 heading paragraph. -/
def isH2p (p : Para) : Bool :=
  if clean_text p.text = "" then false
  else if is_heading p then
    if get_heading_level p = 1 then false
    else if get_heading_level p = 2 then true else false
  else false

/-- The subsection headings among a list of content nodes, in order. -/
def subHeads (cs : List Content) : List String :=
  cs.filterMap (fun c => match c with
    | Content.subsection h _ => some h
    | _ => none)

/-- The observable shape of a section: its heading and the headings of its
    subsections, in order. -/
def secShape (s : Sec) : String × List String := (s.heading, subHeads s.content)

def subsOf (s : OpenSec) : List String :=
  subHeads s.done ++ (match s.sub with | none => [] | some sb => [sb.heading])

/-- Specification-side description of the body pass (modelled from the
    spec's words): from an open section with the given heading and
    already-collected subsection headings, a level-1 heading closes the
    section and opens a new one, a level-2 heading adds a subsection to the
    open section, and every other paragraph changes no headings. -/
def specSecAux (h : String) (subs : List String) : List Para → List (String × List String)
  | [] => [(h, subs)]
  | p :: rest =>
    if isH1p p then (h, subs) :: specSecAux (clean_text p.text) [] rest
    else if isH2p p then specSecAux h (subs ++ [clean_text p.text]) rest
    else specSecAux h subs rest

/-- Specification-side sections of a body-pass paragraph list that starts
    with a level-1 heading. -/
def specSections : List Para → List (String × List String)
  | [] => []
  | p :: rest => if isH1p p then specSecAux (clean_text p.text) [] rest else []

def countH1 (ps : List Para) : Nat := (ps.filter isH1p).length

theorem subHeads_append (a b : List Content) :
    subHeads (a ++ b) = subHeads a ++ subHeads b :=
  List.filterMap_append a b _

theorem secShape_closeSec (s : OpenSec) :
    secShape (closeSec s) = (s.heading, subsOf s) := by
  cases hsub : s.sub <;>
    simp [closeSec, closeSub, secShape, subsOf, hsub, subHeads_append, subHeads]

theorem subHeads_listPush (it : String) :
    ∀ c : List Content, subHeads (listPush c it) = subHeads c := by
  intro c
  induction c with
  | nil => rfl
  | cons x rest ih =>
    cases rest with
    | nil => cases x <;> rfl
    | cons y rest2 =>
      show subHeads (x :: listPush (y :: rest2) it) = subHeads (x :: y :: rest2)
      simp only [subHeads, List.filterMap_cons] at ih ⊢
      rw [ih]

theorem appendContent_shape (s : OpenSec) (mk : List Content → List Content)
    (hmk : ∀ c, subHeads (mk c) = subHeads c) :
    (appendContent s mk).heading = s.heading ∧
    subsOf (appendContent s mk) = subsOf s := by
  cases hsub : s.sub <;> simp [appendContent, subsOf, hsub, hmk]

theorem pushFig_shape (s : OpenSec) (label cap path : String) :
    ∃ s2, pushFig (some s) (Content.figure label cap path) = some s2 ∧
      s2.heading = s.heading ∧ subsOf s2 = subsOf s := by
  obtain ⟨hd, done, sub⟩ := s
  cases sub with
  | none =>
    refine ⟨⟨hd, done ++ [Content.figure label cap path], none⟩, rfl, rfl, ?_⟩
    simp [subsOf, subHeads_append, subHeads]
  | some sb =>
    exact ⟨⟨hd, done, some ⟨sb.heading, sb.items ++ [Content.figure label cap path]⟩⟩,
      rfl, rfl, rfl⟩

theorem bodyStep_blank (fi : Option Rel) (p : Para) (st : BodySt)
    (hb : clean_text p.text = "") : bodyStep fi p st = st := by
  simp [bodyStep, bodyStepText, hb]

theorem bodyStep_h1 (fi : Option Rel) (p : Para) (st : BodySt)
    (hb : ¬ clean_text p.text = "") (hh : is_heading p = true)
    (hl : get_heading_level p = 1) :
    bodyStep fi p st =
      { st with body := flushCur st, cur := some ⟨clean_text p.text, [], none⟩ } := by
  simp [bodyStep, bodyStepText, hb, hh, hl]

theorem bodyStep_h2 (fi : Option Rel) (p : Para) (st : BodySt) (s : OpenSec)
    (hcur : st.cur = some s)
    (hb : ¬ clean_text p.text = "") (hh : is_heading p = true)
    (hl1 : ¬ get_heading_level p = 1) (hl2 : get_heading_level p = 2) :
    bodyStep fi p st =
      { st with cur := some ⟨s.heading, s.done ++ closeSub s.sub,
          some ⟨clean_text p.text, []⟩⟩ } := by
  simp [bodyStep, bodyStepText, hb, hh, hl1, hl2, hcur]

theorem bodyStep_hother (fi : Option Rel) (p : Para) (st : BodySt)
    (hb : ¬ clean_text p.text = "") (hh : is_heading p = true)
    (hl1 : ¬ get_heading_level p = 1) (hl2 : ¬ get_heading_level p = 2) :
    bodyStep fi p st = st := by
  simp [bodyStep, bodyStepText, hb, hh, hl1, hl2]

/-- A non-heading, non-blank paragraph leaves the flushed shape of the body
    untouched: body unchanged, current section still open with the same
    heading and subsection headings. -/
theorem bodyStep_flat (fi : Option Rel) (p : Para) (st : BodySt) (s : OpenSec)
    (hcur : st.cur = some s)
    (hb : ¬ clean_text p.text = "") (hh : is_heading p = false) :
    (bodyStep fi p st).body = st.body ∧
    ∃ s2, (bodyStep fi p st).cur = some s2 ∧
      s2.heading = s.heading ∧ subsOf s2 = subsOf s := by
  unfold bodyStep bodyStepText
  rw [if_neg hb, if_neg (by simp [hh])]
  cases hfm : figMatch (clean_text p.text) with
  | some pr =>
    obtain ⟨num, cap⟩ := pr
    dsimp only
    cases fi with
    | none => exact ⟨rfl, s, hcur, rfl, rfl⟩
    | some r =>
      dsimp only
      cases hsv : save_image r st.figCount ("Figure " ++ num ++ ": " ++ cap) with
      | none => exact ⟨rfl, s, hcur, rfl, rfl⟩
      | some info =>
        dsimp only
        rw [hcur]
        rcases pushFig_shape s ("Fig" ++ num) cap info.path with ⟨s2, hps, hhd, hsb⟩
        exact ⟨rfl, s2, by rw [hps], hhd, hsb⟩
  | none =>
    dsimp only
    rw [hcur]
    by_cases hl : (isListStyle p || startsBullet (clean_text p.text)) = true
    · rw [if_pos hl]
      rcases appendContent_shape s (fun c => listPush c (listItemText (clean_text p.text)))
        (fun c => subHeads_listPush _ c) with ⟨hhd, hsb⟩
      exact ⟨rfl, _, rfl, hhd, hsb⟩
    · rw [if_neg hl]
      rcases appendContent_shape s (fun c => c ++ [Content.paragraph (clean_text p.text)])
        (fun c => by simp [subHeads_append, subHeads]) with ⟨hhd, hsb⟩
      exact ⟨rfl, _, rfl, hhd, hsb⟩

/-- The body loop, started on an open section, produces exactly the
    sections described by specSecAux: one section per level-1 heading, in
    order, with the level-2 headings read while it was open as its
    subsection headings. -/
theorem bodyLoop_shape (fi : Option Rel) :
    ∀ (ps : List Para) (st : BodySt) (s : OpenSec), st.cur = some s →
      (flushCur (bodyLoop fi ps st)).map secShape =
        st.body.map secShape ++ specSecAux s.heading (subsOf s) ps := by
  intro ps
  induction ps with
  | nil =>
    intro st s hcur
    show (flushCur st).map secShape = _
    simp [flushCur, hcur, specSecAux, secShape_closeSec]
  | cons p rest ih =>
    intro st s hcur
    show (flushCur (bodyLoop fi rest (bodyStep fi p st))).map secShape = _
    by_cases hb : clean_text p.text = ""
    · rw [bodyStep_blank fi p st hb, ih st s hcur]
      have h1 : isH1p p = false := by simp [isH1p, hb]
      have h2 : isH2p p = false := by simp [isH2p, hb]
      rw [specSecAux, if_neg (by simp [h1]), if_neg (by simp [h2])]
    · by_cases hh : is_heading p = true
      · by_cases hl1 : get_heading_level p = 1
        · rw [bodyStep_h1 fi p st hb hh hl1,
            ih _ ⟨clean_text p.text, [], none⟩ rfl]
          have h1 : isH1p p = true := by simp [isH1p, hb, hh, hl1]
          rw [specSecAux, if_pos (by simp [h1])]
          simp [flushCur, hcur, secShape_closeSec, subsOf, subHeads]
        · by_cases hl2 : get_heading_level p = 2
          · rw [bodyStep_h2 fi p st s hcur hb hh hl1 hl2,
              ih _ ⟨s.heading, s.done ++ closeSub s.sub, some ⟨clean_text p.text, []⟩⟩ rfl]
            have h1 : isH1p p = false := by simp [isH1p, hb, hh, hl1]
            have h2 : isH2p p = true := by simp [isH2p, hb, hh, hl1, hl2]
            rw [specSecAux, if_neg (by simp [h1]), if_pos (by simp [h2])]
            have hsubs : subsOf ⟨s.heading, s.done ++ closeSub s.sub,
                some ⟨clean_text p.text, []⟩⟩ = subsOf s ++ [clean_text p.text] := by
              cases hsub : s.sub <;>
                simp [subsOf, closeSub, hsub, subHeads_append, subHeads]
            rw [hsubs]
          · rw [bodyStep_hother fi p st hb hh hl1 hl2, ih st s hcur]
            have h1 : isH1p p = false := by simp [isH1p, hb, hh, hl1]
            have h2 : isH2p p = false := by simp [isH2p, hb, hh, hl1, hl2]
            rw [specSecAux, if_neg (by simp [h1]), if_neg (by simp [h2])]
      · have hh2 : is_heading p = false := by simp at hh; exact hh
        rcases bodyStep_flat fi p st s hcur hb hh2 with ⟨hbody, s2, hcur2, hhd, hsb⟩
        rw [ih _ s2 hcur2, hbody, hhd, hsb]
        have h1 : isH1p p = false := by simp [isH1p, hb, hh2]
        have h2 : isH2p p = false := by simp [isH2p, hb, hh2]
        rw [specSecAux, if_neg (by simp [h1]), if_neg (by simp [h2])]

theorem specSecAux_ne_nil (h : String) (subs : List String) :
    ∀ ps : List Para, specSecAux h subs ps ≠ [] := by
  intro ps
  induction ps generalizing h subs with
  | nil => simp [specSecAux]
  | cons p rest ih =>
    rw [specSecAux]
    split
    · simp
    · split
      · exact ih _ _
      · exact ih _ _

theorem specSecAux_length (h : String) (subs : List String) :
    ∀ ps : List Para, (specSecAux h subs ps).length = 1 + countH1 ps := by
  intro ps
  induction ps generalizing h subs with
  | nil => simp [specSecAux, countH1]
  | cons p rest ih =>
    rw [specSecAux]
    by_cases h1 : isH1p p = true
    · rw [if_pos (by simp [h1])]
      simp [countH1, List.filter_cons, h1, ih]
      omega
    · have h1f : isH1p p = false := by simp at h1; exact h1
      rw [if_neg (by simp [h1f])]
      have : countH1 (p :: rest) = countH1 rest := by
        simp [countH1, List.filter_cons, h1f]
      split
      · rw [ih, this]
      · rw [ih, this]

/-- Shapes survive the table pass: appending a table node to the last
    section changes no heading and no subsection heading. -/
theorem appendToLastSec_shape (l : String) (hd : List String) (rows : List (List String)) :
    ∀ body : List Sec, body ≠ [] →
      (appendToLastSec (Content.table l hd rows) body).map secShape =
        body.map secShape ∧
      appendToLastSec (Content.table l hd rows) body ≠ [] := by
  intro body
  induction body with
  | nil => intro hne; exact absurd rfl hne
  | cons s rest ih =>
    intro _
    cases rest with
    | nil =>
      refine ⟨?_, by simp [appendToLastSec]⟩
      show [secShape ⟨s.heading, s.content ++ [_]⟩] = [secShape s]
      simp [secShape, subHeads_append, subHeads]
    | cons t rest2 =>
      rcases ih (by simp) with ⟨hmap, hne2⟩
      constructor
      · show secShape s :: _ = secShape s :: _
        rw [hmap]
      · simp [appendToLastSec]

theorem tableLoop_shape :
    ∀ (raws : List (List (List String))) (body : List Sec) (tbls : List TableData),
      body ≠ [] →
      (tableLoop raws body tbls).1.map secShape = body.map secShape := by
  intro raws
  induction raws with
  | nil => intro body tbls _; rfl
  | cons raw rest ih =>
    intro body tbls hne
    cases raw with
    | nil => exact ih body tbls hne
    | cons hrow rrows =>
      rcases appendToLastSec_shape ("Table" ++ toString (tbls.length + 1))
        (hrow.map clean_text) (rrows.map (fun row => row.map clean_text))
        body hne with ⟨hmap, hne2⟩
      exact (ih _ _ hne2).trans hmap

theorem isH1p_iff (p : Para) :
    isH1p p = true ↔
      (clean_text p.text ≠ "" ∧ is_heading p = true ∧ get_heading_level p = 1) := by
  unfold isH1p
  split_ifs <;> simp_all

/-- Counterexample to claim C3: a level-2 heading with no open section
    synthesizes an 'Untitled Section', so the body holds one Section while
    zero level-1 heading paragraphs were encountered. -/
theorem claim3_counterexample :
    countH1 c3doc.paragraphs = 0 ∧
    (∀ p, p ∈ c3doc.paragraphs → isH1p p = false) ∧
    (extract_docx c3doc).body.length = 1 ∧
    (extract_docx c3doc).body.map secShape = [("Untitled Section", ["Sub"])] := by
  exact ⟨by decide, by decide, by decide, by decide⟩

/-- Claim C3 as amended: provided the paragraphs reaching the body pass
    start with a (non-blank) level-1 heading — so that no section is
    synthesized — the sections of body are exactly one per level-1 heading
    of the body pass, in heading order, each carrying as subsections
    exactly the level-2 headings read while it was the open section; in
    particular the number of Sections equals the number of level-1 heading
    paragraphs. -/
theorem claim3_amended (d : DocxDoc) (p : Para) (rest : List Para)
    (hbp : bodyParas d = p :: rest) (h1 : isH1p p = true) :
    (extract_docx d).body.map secShape = specSections (bodyParas d) ∧
    (extract_docx d).body.length = countH1 (bodyParas d) := by
  obtain ⟨hb, hh, hl⟩ := (isH1p_iff p).mp h1
  have hshape : (flushCur (docxBodySt d)).map secShape =
      specSecAux (clean_text p.text) [] rest := by
    show (flushCur (bodyLoop (d.rels.find? (fun r => r.isImage)) (bodyParas d)
      ⟨[], none, 1, [], []⟩)).map secShape = _
    rw [hbp]
    show (flushCur (bodyLoop _ rest (bodyStep _ p ⟨[], none, 1, [], []⟩))).map secShape = _
    rw [bodyStep_h1 _ p _ hb hh hl]
    rw [bodyLoop_shape _ rest _ ⟨clean_text p.text, [], none⟩ rfl]
    simp [flushCur, subsOf, subHeads]
  have hne : flushCur (docxBodySt d) ≠ [] := by
    intro hx
    refine specSecAux_ne_nil (clean_text p.text) [] rest ?_
    rw [← hshape, hx]
    rfl
  have hmain : (extract_docx d).body.map secShape =
      specSecAux (clean_text p.text) [] rest := by
    show (tableLoop d.tables (flushCur (docxBodySt d)) []).1.map secShape = _
    rw [tableLoop_shape d.tables _ [] hne, hshape]
  have hspec : specSections (bodyParas d) = specSecAux (clean_text p.text) [] rest := by
    rw [hbp]
    show (if isH1p p then specSecAux (clean_text p.text) [] rest else []) = _
    rw [if_pos (by simp [h1])]
  constructor
  · rw [hmain, hspec]
  · have hlen : (extract_docx d).body.length =
        (specSecAux (clean_text p.text) [] rest).length := by
      rw [← hmain, List.length_map]
    rw [hlen, specSecAux_length, hbp]
    simp [countH1, List.filter_cons, h1]
    omega

/-- A styled document whose body pass starts with a level-1 heading. -/
def c3wit : DocxDoc :=
  ⟨[⟨"T", "Normal"⟩, ⟨"A", "Heading 1"⟩, ⟨"A1", "Heading 2"⟩, ⟨"x", "Normal"⟩,
    ⟨"B", "Heading 1"⟩], [], []⟩

/-- Witness for C3's amended statement. -/
theorem claim3_witness :
    bodyParas c3wit =
      [⟨"A", "Heading 1"⟩, ⟨"A1", "Heading 2"⟩, ⟨"x", "Normal"⟩, ⟨"B", "Heading 1"⟩] ∧
    isH1p ⟨"A", "Heading 1"⟩ = true ∧
    specSections (bodyParas c3wit) = [("A", ["A1"]), ("B", [])] ∧
    (extract_docx c3wit).body.map secShape = specSections (bodyParas c3wit) ∧
    (extract_docx c3wit).body.length = countH1 (bodyParas c3wit) := by
  refine ⟨by decide, by decide, by decide, ?_, ?_⟩
  · exact (claim3_amended c3wit ⟨"A", "Heading 1"⟩
      [⟨"A1", "Heading 2"⟩, ⟨"x", "Normal"⟩, ⟨"B", "Heading 1"⟩] (by decide) (by decide)).1
  · exact (claim3_amended c3wit ⟨"A", "Heading 1"⟩
      [⟨"A1", "Heading 2"⟩, ⟨"x", "Normal"⟩, ⟨"B", "Heading 1"⟩] (by decide) (by decide)).2

end Pub
